import Mathlib

/-!
# Verification of the ScentMatch fragrance-data pipeline

Shallow embedding of the deduplication / priority-ranking / schema-normalization
engine of the `scentmatch` repository:

* `data/hybrid-pipeline/scripts/kaggle_processor.py`
  (`calculate_priority_score`, `clean_fragrance_data`),
* `data/hybrid-pipeline/scripts/fix_data_for_import.py`
  (`remove_duplicates`, `record_quality_score`),
* `data/hybrid-pipeline/scripts/fix_duplicate_names.py`
  (`fix_duplicate_names`),
* `data/hybrid-pipeline/scripts/04_database_importer.py`
  (`validate_fragrance_data`, `batch_upsert`).

Python strings are modelled as `List Char` where character-level work matters
and as `String` elsewhere; Python float arithmetic is modelled over `ℝ`
(respectively `ℚ` where only comparisons occur); dictionary-key presence is
modelled with `Option`/`Bool` fields.
-/

namespace ScentMatch

/-! ## Python string primitives -/

/-- The Python substring operator `needle in hay`, over `List Char`:
`true` iff `needle` occurs contiguously inside `hay`. -/
def containsTok (needle : List Char) : List Char → Bool
  | [] => needle.isEmpty
  | c :: t => needle.isPrefixOf (c :: t) || containsTok needle t

theorem containsTok_iff (needle hay : List Char) :
    containsTok needle hay = true ↔ needle <:+: hay := by
  induction hay with
  | nil =>
    simp [containsTok, List.isEmpty_iff]
  | cons c t ih =>
    simp [containsTok, ih, List.infix_cons_iff]

/-- Python `str.lower()` (ASCII-faithful). -/
def pyLower (s : List Char) : List Char := s.map Char.toLower

/-- Python `str.strip()`: drop whitespace from both ends. -/
def pyStrip (s : List Char) : List Char :=
  ((s.dropWhile Char.isWhitespace).reverse.dropWhile Char.isWhitespace).reverse

/-! ## Gender normalization (`kaggle_processor.py`, `clean_fragrance_data`,
lines 105–112)

```python
gender = str(row['Gender']).lower().strip()
if 'women' in gender and 'men' not in gender:
    gender_normalized = 'women'
elif 'men' in gender and 'women' not in gender:
    gender_normalized = 'men'
else:
    gender_normalized = 'unisex'
```
-/

def womenTok : List Char := ['w', 'o', 'm', 'e', 'n']

def menTok : List Char := ['m', 'e', 'n']

/-- Embedding of the gender-normalization fragment of `clean_fragrance_data`. -/
def normalize_gender (raw : List Char) : String :=
  let gender := pyStrip (pyLower raw)
  if containsTok womenTok gender && !containsTok menTok gender then "women"
  else if containsTok menTok gender && !containsTok womenTok gender then "men"
  else "unisex"

/-- `"men"` occurs inside any string that contains `"women"`. -/
theorem menTok_of_womenTok {g : List Char} (h : containsTok womenTok g = true) :
    containsTok menTok g = true := by
  rw [containsTok_iff] at h ⊢
  exact List.IsInfix.trans (by decide) h

/-- **C1.** The code's gender normalization uses naive substring containment, not
word-boundary matching: since `"men"` is a substring of `"women"`, the branch
producing `"women"` is unreachable, so no input whatsoever normalizes to
`"women"`; in particular `"for women only"` normalizes to `"unisex"`, contrary
to the spec (and to the word-boundary reimplementation asserted in
`tests/test_kaggle_processor.py`). -/
theorem c1_gender_women_branch_unreachable :
    (∀ raw : List Char, normalize_gender raw ≠ "women") ∧
      normalize_gender ("for women only".toList) = "unisex" := by
  constructor
  · intro raw
    by_cases hw : containsTok womenTok (pyStrip (pyLower raw)) = true
    · have hm := menTok_of_womenTok hw
      simp [normalize_gender, hw, hm]
    · by_cases hm : containsTok menTok (pyStrip (pyLower raw)) = true
      · simp [normalize_gender, hw, hm]
      · simp [normalize_gender, hw, hm]
  · decide

/-! ## Slug generation (`kaggle_processor.py`, `clean_fragrance_data`,
lines 114–117)

```python
brand_id = re.sub(r'[^a-z0-9]+', '-', brand.lower()).strip('-')
fragrance_slug = re.sub(r'[^a-z0-9]+', '-', name_cleaned.lower()).strip('-')
```

`re.sub(r'[^a-z0-9]+', '-', s)` replaces every maximal run of characters
outside `[a-z0-9]` by a single hyphen; we realize it as a per-character
replacement followed by collapsing adjacent hyphens.
-/

/-- The character class `[a-z0-9]`. -/
def isSlugAlnum (c : Char) : Bool := ('a' ≤ c && c ≤ 'z') || ('0' ≤ c && c ≤ '9')

/-- Replace each character outside `[a-z0-9]` by `'-'`. -/
def dashify (s : List Char) : List Char :=
  s.map (fun c => if isSlugAlnum c then c else '-')

/-- Collapse each run of adjacent `'-'` into a single `'-'`. -/
def squeezeDashes : List Char → List Char
  | [] => []
  | [c] => [c]
  | a :: b :: t =>
    if a = '-' ∧ b = '-' then squeezeDashes (b :: t)
    else a :: squeezeDashes (b :: t)

/-- Python `str.strip('-')`. -/
def stripDashes (s : List Char) : List Char :=
  ((s.dropWhile (· = '-')).reverse.dropWhile (· = '-')).reverse

/-- `re.sub(r'[^a-z0-9]+', '-', s.lower()).strip('-')`: the slug/brand-id
generator of `clean_fragrance_data`. -/
def slugify (s : List Char) : List Char :=
  stripDashes (squeezeDashes (dashify (pyLower s)))

/-- State machine for the tail of the regex `^[a-z0-9]+(-[a-z0-9]+)*$`;
`afterDash` records whether the previously consumed character was `'-'`. -/
def slugRegexRun (afterDash : Bool) : List Char → Bool
  | [] => !afterDash
  | c :: t =>
    if isSlugAlnum c then slugRegexRun false t
    else (c == '-') && !afterDash && slugRegexRun true t

/-- Matcher for the spec's slug well-formedness regex
`^[a-z0-9]+(-[a-z0-9]+)*$`. -/
def matchesSlugRegex : List Char → Bool
  | [] => false
  | c :: t => isSlugAlnum c && slugRegexRun false t

theorem squeezeDashes_head? (t : List Char) :
    ∀ b : Char, (squeezeDashes (b :: t)).head? = some b := by
  induction t with
  | nil => intro b; simp [squeezeDashes]
  | cons c t' ih =>
    intro b
    by_cases h : b = '-' ∧ c = '-'
    · rw [show squeezeDashes (b :: c :: t') = squeezeDashes (c :: t') from
        by simp [squeezeDashes, h], ih c, h.1, h.2]
    · rw [show squeezeDashes (b :: c :: t') = b :: squeezeDashes (c :: t') from
        by simp [squeezeDashes, h]]
      rfl

theorem squeezeDashes_chain' (l : List Char) :
    (squeezeDashes l).Chain' (fun a b => ¬(a = '-' ∧ b = '-')) := by
  induction l using squeezeDashes.induct with
  | case1 => simp [squeezeDashes]
  | case2 c => simp [squeezeDashes]
  | case3 a b t h ih =>
    rw [show squeezeDashes (a :: b :: t) = squeezeDashes (b :: t) from
      by simp [squeezeDashes, h]]
    exact ih
  | case4 a b t h ih =>
    rw [show squeezeDashes (a :: b :: t) = a :: squeezeDashes (b :: t) from
      by simp [squeezeDashes, h]]
    rw [List.chain'_cons']
    refine ⟨?_, ih⟩
    intro y hy
    rw [squeezeDashes_head? t b] at hy
    simp only [Option.mem_def, Option.some.injEq] at hy
    subst hy
    exact h

theorem squeezeDashes_subset (l : List Char) : squeezeDashes l ⊆ l := by
  induction l using squeezeDashes.induct with
  | case1 => simp [squeezeDashes]
  | case2 c => simp [squeezeDashes]
  | case3 a b t h ih =>
    rw [show squeezeDashes (a :: b :: t) = squeezeDashes (b :: t) from
      by simp [squeezeDashes, h]]
    exact ih.trans (List.subset_cons_self a (b :: t))
  | case4 a b t h ih =>
    rw [show squeezeDashes (a :: b :: t) = a :: squeezeDashes (b :: t) from
      by simp [squeezeDashes, h]]
    exact List.cons_subset_cons a ih

theorem head?_of_isPrefix {α : Type} {l₁ l₂ : List α} {c : α}
    (h : l₁ <+: l₂) (hc : l₁.head? = some c) : l₂.head? = some c := by
  rcases h with ⟨s, rfl⟩
  cases l₁ with
  | nil => simp at hc
  | cons a t =>
    simp only [List.head?_cons, Option.some.injEq] at hc
    simp [hc]

theorem getLast?_of_isSuffix {α : Type} {l₁ l₂ : List α} {c : α}
    (h : l₁ <:+ l₂) (hc : l₁.getLast? = some c) : l₂.getLast? = some c := by
  rw [List.getLast?_eq_head?_reverse] at hc ⊢
  exact head?_of_isPrefix (List.reverse_prefix.mpr h) hc

theorem stripDashes_isInfix (l : List Char) : stripDashes l <:+: l := by
  unfold stripDashes
  have h1 : l.dropWhile (· = '-') <:+ l := List.dropWhile_suffix _
  have h2 : (l.dropWhile (· = '-')).reverse.dropWhile (· = '-') <:+
      (l.dropWhile (· = '-')).reverse := List.dropWhile_suffix _
  have h3 : ((l.dropWhile (· = '-')).reverse.dropWhile (· = '-')).reverse <:+:
      (l.dropWhile (· = '-')).reverse.reverse :=
    List.reverse_infix.mpr h2.isInfix
  rw [List.reverse_reverse] at h3
  exact h3.trans h1.isInfix

theorem stripDashes_head? (l : List Char) {c : Char}
    (h : (stripDashes l).head? = some c) : c ≠ '-' := by
  unfold stripDashes at h
  rw [List.head?_reverse] at h
  have hs : (l.dropWhile (· = '-')).reverse.dropWhile (· = '-') <:+
      (l.dropWhile (· = '-')).reverse := List.dropWhile_suffix _
  have h2 := getLast?_of_isSuffix hs h
  rw [List.getLast?_eq_head?_reverse, List.reverse_reverse] at h2
  have h0 := List.head?_dropWhile_not (fun x : Char => decide (x = '-')) l
  rw [h2] at h0
  intro hc
  subst hc
  simp at h0

theorem stripDashes_getLast? (l : List Char) {c : Char}
    (h : (stripDashes l).getLast? = some c) : c ≠ '-' := by
  unfold stripDashes at h
  rw [List.getLast?_eq_head?_reverse, List.reverse_reverse] at h
  have h0 := List.head?_dropWhile_not (fun x : Char => decide (x = '-'))
    (l.dropWhile (· = '-')).reverse
  rw [h] at h0
  intro hc
  subst hc
  simp at h0

/-- Acceptance lemma for the regex tail automaton: if every character is in
`[a-z0-9-]`, no two adjacent characters are both `'-'`, and the final
character is not `'-'`, the automaton accepts from the state recording the
previous character. -/
theorem slugRegexRun_accepts (t : List Char) :
    ∀ prev : Char,
      (∀ c ∈ t, isSlugAlnum c = true ∨ c = '-') →
      (prev :: t).Chain' (fun a b => ¬(a = '-' ∧ b = '-')) →
      (prev :: t).getLast? ≠ some '-' →
      slugRegexRun (prev == '-') t = true := by
  induction t with
  | nil =>
    intro prev _ _ hlast
    simp only [List.getLast?_singleton, ne_eq, Option.some.injEq] at hlast
    simp [slugRegexRun, hlast]
  | cons c t ih =>
    intro prev hall hchain hlast
    have hcmem : isSlugAlnum c = true ∨ c = '-' := hall c (List.mem_cons_self c t)
    have hall' : ∀ x ∈ t, isSlugAlnum x = true ∨ x = '-' :=
      fun x hx => hall x (List.mem_cons_of_mem c hx)
    have hchain' : (c :: t).Chain' (fun a b => ¬(a = '-' ∧ b = '-')) :=
      (List.chain'_cons.mp hchain).2
    have hlast' : (c :: t).getLast? ≠ some '-' := by
      rwa [List.getLast?_cons_cons] at hlast
    rcases hcmem with hc | hc
    · have hcd : c ≠ '-' := by
        intro hcd
        rw [hcd] at hc
        exact absurd hc (by decide)
      have hcne : (c == '-') = false := beq_eq_false_iff_ne.mpr hcd
      rw [show slugRegexRun (prev == '-') (c :: t) = slugRegexRun false t from
        by simp [slugRegexRun, hc]]
      have := ih c hall' hchain' hlast'
      rwa [hcne] at this
    · subst hc
      have hprev : ¬(prev = '-' ∧ '-' = '-') := (List.chain'_cons.mp hchain).1
      have hprevne : (prev == '-') = false :=
        beq_eq_false_iff_ne.mpr (fun hp => hprev ⟨hp, rfl⟩)
      have htail : slugRegexRun true t = true := by
        have := ih '-' hall' hchain' hlast'
        simpa using this
      have hdal : isSlugAlnum '-' = false := by decide
      simp [slugRegexRun, hdal, hprevne, htail]

theorem dashify_mem (s : List Char) : ∀ c ∈ dashify s, isSlugAlnum c = true ∨ c = '-' := by
  intro c hc
  rcases List.mem_map.mp hc with ⟨a, _, ha⟩
  by_cases h : isSlugAlnum a = true
  · left; rw [← ha]; simp [h]
  · right; rw [← ha]; simp [h]

/-- **C8 (amended).** Every generated slug / brand id is either empty or
matches `^[a-z0-9]+(-[a-z0-9]+)*$`; equivalently it always contains only
`[a-z0-9-]` with no leading, trailing, or doubled hyphens, but it need not be
non-empty. -/
theorem c8_slug_wellformed_or_empty (s : List Char) :
    slugify s = [] ∨ matchesSlugRegex (slugify s) = true := by
  rcases hsl : slugify s with _ | ⟨c, t⟩
  · exact Or.inl rfl
  right
  have hinf : c :: t <:+: squeezeDashes (dashify (pyLower s)) := by
    rw [← hsl]
    exact stripDashes_isInfix _
  have hall : ∀ x ∈ c :: t, isSlugAlnum x = true ∨ x = '-' := by
    intro x hx
    exact dashify_mem (pyLower s) x
      (squeezeDashes_subset (dashify (pyLower s)) (hinf.subset hx))
  have hchain : (c :: t).Chain' (fun a b => ¬(a = '-' ∧ b = '-')) := by
    obtain ⟨pre, post, hsplit⟩ := hinf
    have hfull := squeezeDashes_chain' (dashify (pyLower s))
    rw [← hsplit] at hfull
    exact (hfull.left_of_append).right_of_append
  have hhead : c ≠ '-' := by
    apply stripDashes_head? (squeezeDashes (dashify (pyLower s)))
    rw [show stripDashes (squeezeDashes (dashify (pyLower s))) = c :: t from hsl]
    rfl
  have hlast : (c :: t).getLast? ≠ some '-' := by
    intro h
    exact stripDashes_getLast? (squeezeDashes (dashify (pyLower s)))
      (by rw [show stripDashes (squeezeDashes (dashify (pyLower s))) = c :: t from hsl]
          exact h) rfl
  have hcal : isSlugAlnum c = true := by
    rcases hall c (List.mem_cons_self c t) with h | h
    · exact h
    · exact absurd h hhead
  have hrun : slugRegexRun (c == '-') t = true :=
    slugRegexRun_accepts t c
      (fun x hx => hall x (List.mem_cons_of_mem c hx)) hchain hlast
  have hcne : (c == '-') = false := beq_eq_false_iff_ne.mpr hhead
  rw [hcne] at hrun
  simp [matchesSlugRegex, hcal, hrun]

/-- **C8 counterexample.** The claim "for every input the generated slug
matches `^[a-z0-9]+(-[a-z0-9]+)*$`" fails: an input with no alphanumeric
characters (here `"!"`) yields the empty slug, which the regex rejects. -/
theorem c8_counterexample_empty_slug :
    slugify ("!".toList) = [] ∧ matchesSlugRegex (slugify ("!".toList)) = false := by
  constructor <;> decide

/-! ## Deduplication (`fix_data_for_import.py`, `remove_duplicates`,
lines 106–143)

Records are grouped by `id` into a `defaultdict(list)` (insertion-ordered, as
Python dicts are); singleton groups pass through; larger groups keep
`max(group, key=record_quality_score)`, which in Python returns the *first*
element attaining the maximal key. `record.get(field)` truthiness: `None`,
`0`, `''` and `[]` are falsy.
-/

/-- The fields of a fragrance record that `remove_duplicates` /
`record_quality_score` consult. -/
structure DedupRecord where
  id : String
  rating_value : Option ℚ
  rating_count : Option ℤ
  top_notes : String
  middle_notes : String
  base_notes : String
  perfumers : List String
  fragrantica_url : String
deriving DecidableEq

/-- Python truthiness of `record.get(k)` for an optional numeric field. -/
def truthyRat : Option ℚ → Bool
  | none => false
  | some q => decide (q ≠ 0)

/-- Python truthiness of `record.get(k)` for an optional integer field. -/
def truthyInt : Option ℤ → Bool
  | none => false
  | some n => decide (n ≠ 0)

/-- Python truthiness of a string field (`''` is falsy). -/
def truthyStr (s : String) : Bool := !s.isEmpty

/-- Python truthiness of a list field (`[]` is falsy). -/
def truthyList (l : List String) : Bool := !l.isEmpty

/-- `record_quality_score` from `remove_duplicates` (lines 126–135). -/
def record_quality_score (r : DedupRecord) : ℕ :=
  (if truthyRat r.rating_value then 10 else 0) +
    (if truthyInt r.rating_count then 10 else 0) +
    (if truthyStr r.top_notes then 5 else 0) +
    (if truthyStr r.middle_notes then 5 else 0) +
    (if truthyStr r.base_notes then 5 else 0) +
    (if truthyList r.perfumers then 3 else 0) +
    (if truthyStr r.fragrantica_url then 1 else 0)

/-- One step of filling a `defaultdict(list)`: append `x` to the group of its
key, creating the group at the end on first sight (Python dicts preserve
insertion order). -/
def insertGrouped {α κ : Type} [DecidableEq κ] (key : α → κ)
    (acc : List (κ × List α)) (x : α) : List (κ × List α) :=
  match acc with
  | [] => [(key x, [x])]
  | (k, g) :: rest =>
    if k = key x then (k, g ++ [x]) :: rest
    else (k, g) :: insertGrouped key rest x

/-- `defaultdict(list)` grouping of a record list by a key, in first-seen key
order. -/
def groupByKey {α κ : Type} [DecidableEq κ] (key : α → κ)
    (l : List α) : List (κ × List α) :=
  l.foldl (insertGrouped key) []

/-- Python `max(l, key=f)` over the non-empty list `a :: l`: left fold that
replaces the current best only on a strictly greater key, hence returns the
first element attaining the maximum. -/
def pyMax {α : Type} (f : α → ℕ) (a : α) : List α → α
  | [] => a
  | x :: xs => pyMax f (if f a < f x then x else a) xs

/-- The per-group selection of `remove_duplicates`: a singleton group passes
through, a larger group keeps `max(group, key=record_quality_score)`. -/
def chooseBest : List DedupRecord → Option DedupRecord
  | [] => none
  | [r] => some r
  | r :: rest => some (pyMax record_quality_score r rest)

/-- `remove_duplicates` (lines 106–143): group by `id`, keep one record per
group. -/
def remove_duplicates (l : List DedupRecord) : List DedupRecord :=
  (groupByKey (fun r => r.id) l).filterMap (fun kg => chooseBest kg.2)

theorem chooseBest_cons (r : DedupRecord) (rest : List DedupRecord) :
    chooseBest (r :: rest) = some (pyMax record_quality_score r rest) := by
  cases rest <;> rfl

theorem pyMax_mem {α : Type} (f : α → ℕ) (l : List α) :
    ∀ a : α, pyMax f a l ∈ a :: l := by
  induction l with
  | nil => intro a; exact List.mem_singleton.mpr rfl
  | cons x xs ih =>
    intro a
    rw [show pyMax f a (x :: xs) = pyMax f (if f a < f x then x else a) xs from rfl]
    have h := ih (if f a < f x then x else a)
    rcases List.mem_cons.mp h with h | h
    · rw [h]
      split
      · exact List.mem_cons_of_mem a (List.mem_cons_self x xs)
      · exact List.mem_cons_self a (x :: xs)
    · exact List.mem_cons_of_mem a (List.mem_cons_of_mem x h)

theorem pyMax_le {α : Type} (f : α → ℕ) (l : List α) :
    ∀ a : α, ∀ x ∈ a :: l, f x ≤ f (pyMax f a l) := by
  induction l with
  | nil =>
    intro a x hx
    rcases List.mem_singleton.mp hx with rfl
    exact le_refl _
  | cons y ys ih =>
    intro a x hx
    rw [show pyMax f a (y :: ys) = pyMax f (if f a < f y then y else a) ys from rfl]
    have hbase : f a ≤ f (if f a < f y then y else a) ∧
        f y ≤ f (if f a < f y then y else a) := by
      split
      · next h => exact ⟨le_of_lt h, le_refl _⟩
      · next h => exact ⟨le_refl _, le_of_not_lt h⟩
    have hacc := ih (if f a < f y then y else a)
    have haccself := hacc _ (List.mem_cons_self (if f a < f y then y else a) ys)
    rcases List.mem_cons.mp hx with rfl | hx
    · exact hbase.1.trans haccself
    · rcases List.mem_cons.mp hx with rfl | hx
      · exact hbase.2.trans haccself
      · exact hacc x (List.mem_cons_of_mem _ hx)

/-- `pyMax` returns the *first* element attaining the maximum: everything
strictly before it in the list scores strictly less. -/
theorem pyMax_first {α : Type} (f : α → ℕ) (l : List α) :
    ∀ a : α, ∃ l₁ l₂ : List α,
      a :: l = l₁ ++ pyMax f a l :: l₂ ∧ ∀ x ∈ l₁, f x < f (pyMax f a l) := by
  induction l with
  | nil =>
    intro a
    exact ⟨[], [], rfl, by intro x hx; exact absurd hx (List.not_mem_nil x)⟩
  | cons y ys ih =>
    intro a
    rw [show pyMax f a (y :: ys) = pyMax f (if f a < f y then y else a) ys from rfl]
    rcases ih (if f a < f y then y else a) with ⟨l₁, l₂, hsplit, hlt⟩
    by_cases hay : f a < f y
    · rw [if_pos hay] at hsplit hlt ⊢
      cases l₁ with
      | nil =>
        simp only [List.nil_append] at hsplit
        refine ⟨[a], l₂, ?_, ?_⟩
        · rw [List.singleton_append, ← hsplit]
        · intro x hx
          rcases List.mem_singleton.mp hx with rfl
          exact hay.trans_le (pyMax_le f ys y y (List.mem_cons_self y ys))
      | cons z l₁' =>
        have hz : z = y := by
          have := congrArg List.head? hsplit
          simpa using this.symm
        subst hz
        have htail : ys = l₁' ++ pyMax f z ys :: l₂ := by
          have := congrArg List.tail hsplit
          simpa using this
        refine ⟨a :: z :: l₁', l₂, ?_, ?_⟩
        · rw [List.cons_append, List.cons_append, ← htail]
        · intro x hx
          rcases List.mem_cons.mp hx with rfl | hx
          · exact hay.trans_le (hlt z (List.mem_cons_self z l₁') |>.le)
          · exact hlt x hx
    · rw [if_neg hay] at hsplit hlt ⊢
      cases l₁ with
      | nil =>
        simp only [List.nil_append] at hsplit
        have hhead : pyMax f a ys = a := by
          have := congrArg List.head? hsplit
          simpa using this.symm
        refine ⟨[], y :: ys, ?_, ?_⟩
        · rw [List.nil_append, hhead]
        · intro x hx
          exact absurd hx (List.not_mem_nil x)
      | cons z l₁' =>
        have hz : z = a := by
          have := congrArg List.head? hsplit
          simpa using this.symm
        subst hz
        have htail : ys = l₁' ++ pyMax f z ys :: l₂ := by
          have := congrArg List.tail hsplit
          simpa using this
        refine ⟨z :: y :: l₁', l₂, ?_, ?_⟩
        · rw [List.cons_append, List.cons_append, ← htail]
        · intro x hx
          rcases List.mem_cons.mp hx with rfl | hx
          · exact hlt x (List.mem_cons_self x l₁')
          · rcases List.mem_cons.mp hx with rfl | hx
            · exact (le_of_not_lt hay).trans_lt
                (hlt z (List.mem_cons_self z l₁'))
            · exact hlt x (List.mem_cons_of_mem z hx)

/-- Invariant of `defaultdict(list)` grouping: keys are pairwise distinct,
every group is non-empty, and every member of a group carries the group's
key. -/
def GroupedInv {α κ : Type} [DecidableEq κ] (key : α → κ)
    (acc : List (κ × List α)) : Prop :=
  (acc.map Prod.fst).Nodup ∧ ∀ kg ∈ acc, kg.2 ≠ [] ∧ ∀ x ∈ kg.2, key x = kg.1

theorem insertGrouped_keys {α κ : Type} [DecidableEq κ] (key : α → κ) (x : α) :
    ∀ acc : List (κ × List α),
      (insertGrouped key acc x).map Prod.fst =
        if key x ∈ acc.map Prod.fst then acc.map Prod.fst
        else acc.map Prod.fst ++ [key x] := by
  intro acc
  induction acc with
  | nil => simp [insertGrouped]
  | cons kg rest ih =>
    obtain ⟨k, g⟩ := kg
    by_cases h : k = key x
    · subst h
      simp [insertGrouped]
    · have h' : ¬ key x = k := fun he => h he.symm
      simp only [insertGrouped, if_neg h, List.map_cons]
      rw [ih]
      by_cases hm : key x ∈ rest.map Prod.fst
      · rw [if_pos hm, if_pos (by simp [hm])]
      · rw [if_neg hm, if_neg (by simp [hm, h']), List.cons_append]

theorem insertGrouped_inv {α κ : Type} [DecidableEq κ] (key : α → κ) (x : α) :
    ∀ acc : List (κ × List α),
      GroupedInv key acc → GroupedInv key (insertGrouped key acc x) := by
  intro acc
  induction acc with
  | nil =>
    intro _
    refine ⟨by simp [insertGrouped], ?_⟩
    intro kg hkg
    rcases List.mem_singleton.mp hkg with rfl
    exact ⟨List.cons_ne_nil x [], by intro y hy; rcases List.mem_singleton.mp hy with rfl; rfl⟩
  | cons kg₀ rest ih =>
    obtain ⟨k, g⟩ := kg₀
    intro hinv
    obtain ⟨hnd, hmem⟩ := hinv
    rw [List.map_cons] at hnd
    obtain ⟨hk, hnd'⟩ := List.nodup_cons.mp hnd
    have hrest : GroupedInv key rest :=
      ⟨hnd', fun kg h => hmem kg (List.mem_cons_of_mem _ h)⟩
    by_cases h : k = key x
    · rw [show insertGrouped key ((k, g) :: rest) x = (k, g ++ [x]) :: rest from
        by simp [insertGrouped, h]]
      refine ⟨?_, ?_⟩
      · rw [List.map_cons]
        exact List.nodup_cons.mpr ⟨hk, hnd'⟩
      · intro kg hkg
        rcases List.mem_cons.mp hkg with rfl | hkg
        · refine ⟨by simp, ?_⟩
          intro y hy
          rcases List.mem_append.mp hy with hy | hy
          · exact (hmem (k, g) (List.mem_cons_self _ _)).2 y hy
          · rcases List.mem_singleton.mp hy with rfl
            exact h.symm
        · exact hmem kg (List.mem_cons_of_mem _ hkg)
    · rw [show insertGrouped key ((k, g) :: rest) x = (k, g) :: insertGrouped key rest x from
        by simp [insertGrouped, h]]
      have hih := ih hrest
      refine ⟨?_, ?_⟩
      · rw [List.map_cons, List.nodup_cons]
        refine ⟨?_, hih.1⟩
        rw [insertGrouped_keys]
        by_cases hm : key x ∈ rest.map Prod.fst
        · rw [if_pos hm]; exact hk
        · rw [if_neg hm]
          intro hcon
          rcases List.mem_append.mp hcon with hcon | hcon
          · exact hk hcon
          · exact h (List.mem_singleton.mp hcon)
      · intro kg hkg
        rcases List.mem_cons.mp hkg with rfl | hkg
        · exact hmem _ (List.mem_cons_self _ _)
        · exact hih.2 kg hkg

theorem groupByKey_inv {α κ : Type} [DecidableEq κ] (key : α → κ) (l : List α) :
    GroupedInv key (groupByKey key l) := by
  suffices h : ∀ acc, GroupedInv key acc →
      GroupedInv key (l.foldl (insertGrouped key) acc) from
    h [] ⟨List.nodup_nil, by intro kg hkg; exact absurd hkg (List.not_mem_nil kg)⟩
  induction l with
  | nil => intro acc h; exact h
  | cons x xs ih => intro acc h; exact ih _ (insertGrouped_inv key x acc h)

theorem filterMap_chooseBest_ids (gl : List (String × List DedupRecord))
    (h : ∀ kg ∈ gl, kg.2 ≠ [] ∧ ∀ x ∈ kg.2, x.id = kg.1) :
    (gl.filterMap (fun kg => chooseBest kg.2)).map (fun r => r.id) =
      gl.map Prod.fst := by
  induction gl with
  | nil => rfl
  | cons kg rest ih =>
    obtain ⟨k, g⟩ := kg
    obtain ⟨hne, hid⟩ := h (k, g) (List.mem_cons_self _ _)
    cases g with
    | nil => exact absurd rfl hne
    | cons r rs =>
      rw [List.filterMap_cons]
      rw [show chooseBest (k, r :: rs).2 = some (pyMax record_quality_score r rs) from
        chooseBest_cons r rs]
      rw [List.map_cons, List.map_cons]
      have hmax : (pyMax record_quality_score r rs).id = k :=
        hid _ (pyMax_mem record_quality_score rs r)
      rw [hmax, ih (fun kg hkg => h kg (List.mem_cons_of_mem _ hkg))]

/-- **C2.** `remove_duplicates` returns a list in which no two records share
an `id`, whatever the input (in particular however many input records share
an id). -/
theorem c2_remove_duplicates_id_nodup (l : List DedupRecord) :
    ((remove_duplicates l).map (fun r => r.id)).Nodup := by
  have hinv := groupByKey_inv (fun r : DedupRecord => r.id) l
  rw [remove_duplicates, filterMap_chooseBest_ids _ hinv.2]
  exact hinv.1

/-- Scenario-B record: no `rating_count`. -/
def recB_noCount : DedupRecord :=
  { id := "chanel__bleu-de-chanel", rating_value := some 4, rating_count := none,
    top_notes := "citrus", middle_notes := "", base_notes := "", perfumers := [],
    fragrantica_url := "" }

/-- Scenario-B record: identical to `recB_noCount` except
`rating_count = 19581`. -/
def recB_withCount : DedupRecord :=
  { recB_noCount with rating_count := some 19581 }

/-- The quality heuristic as the spec words it: "+10 if `rating_value`
present, +10 if `rating_count` present" — i.e. key presence (`isSome`)
regardless of the value.  The remaining criteria ("+5 each for non-empty
top/middle/base notes, +3 if perfumer list non-empty, +1 if source URL
present") coincide with the code's truthiness tests.  Written from the
claim's words, to be compared with `record_quality_score` from the source. -/
def claimed_quality_score (r : DedupRecord) : ℕ :=
  (if r.rating_value.isSome then 10 else 0) +
    (if r.rating_count.isSome then 10 else 0) +
    (if truthyStr r.top_notes then 5 else 0) +
    (if truthyStr r.middle_notes then 5 else 0) +
    (if truthyStr r.base_notes then 5 else 0) +
    (if truthyList r.perfumers then 3 else 0) +
    (if truthyStr r.fragrantica_url then 1 else 0)

/-- A record whose `rating_value` key is present but `0.0` (Python-falsy):
the spec's presence heuristic awards it +10 + 5 = 15, the code's truthiness
test only 5. -/
def recC3zeroRating : DedupRecord :=
  { id := "b__frag", rating_value := some 0, rating_count := none,
    top_notes := "citrus", middle_notes := "", base_notes := "", perfumers := [],
    fragrantica_url := "" }

/-- Same id, no rating, `rating_count = 7`: scores 10 under both readings. -/
def recC3withCount : DedupRecord :=
  { id := "b__frag", rating_value := none, rating_count := some 7,
    top_notes := "", middle_notes := "", base_notes := "", perfumers := [],
    fragrantica_url := "" }

/-- **C3 counterexample.** On the group `[recC3zeroRating, recC3withCount]`
the code keeps `recC3withCount` (truthiness score 5 vs 10), although
`recC3zeroRating` strictly maximizes the claim's presence heuristic
(15 vs 10): `record.get('rating_value')` is falsy for a present `0.0`
(and `kaggle_processor.py:146` does emit `rating_count = 0`), so the claim's
"+10 if present" selection rule is false of the code. -/
theorem c3_counterexample_present_but_zero :
    remove_duplicates [recC3zeroRating, recC3withCount] = [recC3withCount] ∧
      claimed_quality_score recC3withCount <
        claimed_quality_score recC3zeroRating := by
  refine ⟨by decide, by decide⟩

/-- **C3 (amended).** For every group formed by `remove_duplicates`, the
record kept is a member of the group that maximizes `record_quality_score`,
where every criterion uses Python truthiness (+10 rating present *and
nonzero*, +10 count present *and nonzero*, +5 per non-empty notes field,
+3 non-empty perfumers, +1 non-empty URL), ties broken by first-seen order
(everything strictly before the winner scores strictly less); moreover, of
two records identical except that one has `rating_count = 19581` and the
other none, the one with `rating_count` is kept. -/
theorem c3_duplicate_group_selection (l : List DedupRecord) (k : String)
    (g : List DedupRecord)
    (hmem : (k, g) ∈ groupByKey (fun r => r.id) l) :
    (∃ g₁ c g₂, g = g₁ ++ c :: g₂ ∧ c ∈ remove_duplicates l ∧
      (∀ r ∈ g, record_quality_score r ≤ record_quality_score c) ∧
      (∀ r ∈ g₁, record_quality_score r < record_quality_score c)) ∧
    remove_duplicates [recB_noCount, recB_withCount] = [recB_withCount] := by
  constructor
  · have hinv := groupByKey_inv (fun r : DedupRecord => r.id) l
    obtain ⟨hne, _⟩ := hinv.2 (k, g) hmem
    cases g with
    | nil => exact absurd rfl hne
    | cons r rs =>
      obtain ⟨l₁, l₂, hsplit, hlt⟩ := pyMax_first record_quality_score rs r
      refine ⟨l₁, pyMax record_quality_score r rs, l₂, hsplit, ?_, ?_, hlt⟩
      · exact List.mem_filterMap.mpr ⟨(k, r :: rs), hmem, chooseBest_cons r rs⟩
      · intro x hx
        exact pyMax_le record_quality_score rs r x hx
  · decide

/-- Witness for C3: the two-record Scenario-B input, with the group-membership
hypothesis discharged concretely. -/
theorem c3_duplicate_group_selection_witness :
    (("chanel__bleu-de-chanel", [recB_noCount, recB_withCount]) ∈
        groupByKey (fun r : DedupRecord => r.id) [recB_noCount, recB_withCount]) ∧
      (∃ g₁ c g₂, [recB_noCount, recB_withCount] = g₁ ++ c :: g₂ ∧
        c ∈ remove_duplicates [recB_noCount, recB_withCount] ∧
        (∀ r ∈ [recB_noCount, recB_withCount],
          record_quality_score r ≤ record_quality_score c) ∧
        (∀ r ∈ g₁, record_quality_score r < record_quality_score c)) := by
  have h := c3_duplicate_group_selection [recB_noCount, recB_withCount]
    "chanel__bleu-de-chanel" [recB_noCount, recB_withCount] (by decide)
  exact ⟨by decide, h.1⟩

/-! ## Name-collision disambiguation (`fix_duplicate_names.py`, lines 35–93)

Groups records by `(brand_id, name)`; singleton groups pass through.  In a
larger group, each member's `id` is split on `"__"`; if that yields exactly
two parts, the name part is scanned for a concentration keyword, then a year
token `(19|20)\d{2}`, then a version keyword; a found distinguisher is
appended to `name` (if not already contained in it), otherwise members at
positions `i > 0` get a positional suffix `" (i+1)"`.  The record's `id` is
never modified.
-/

/-- Fields of a fragrance record consulted by `fix_duplicate_names`. -/
structure NameRecord where
  brand_id : String
  name : String
  id : String
deriving DecidableEq

/-- Python `needle in hay` on `String`s. -/
def containsStr (hay needle : String) : Bool :=
  containsTok needle.toList hay.toList

/-- Fuel-indexed core of Python `str.split(sep)` (`sep` non-empty). -/
def pySplitAux (sep : List Char) : ℕ → List Char → List Char → List (List Char)
  | 0, acc, rest => [acc.reverse ++ rest]
  | fuel + 1, acc, rest =>
    match rest with
    | [] => [acc.reverse]
    | c :: t =>
      if sep.isPrefixOf (c :: t) then
        acc.reverse :: pySplitAux sep fuel [] ((c :: t).drop sep.length)
      else
        pySplitAux sep fuel (c :: acc) t

/-- Python `s.split(sep)` for a non-empty separator. -/
def pySplit (sep s : List Char) : List (List Char) :=
  pySplitAux sep s.length [] s

/-- The ordered concentration table of `fix_duplicate_names` (Python dicts
iterate in insertion order, so `eau-de-parfum` is tested before `parfum`). -/
def concentrationTable : List (String × String) :=
  [("eau-de-toilette", "EDT"), ("eau-de-parfum", "EDP"), ("parfum", "Parfum"),
   ("extrait", "Extrait"), ("cologne", "Cologne"), ("eau-fraiche", "Eau Fraiche")]

/-- First concentration keyword contained in the name part, if any. -/
def findConcentration (name_part : String) : List (String × String) → Option String
  | [] => none
  | (cid, cname) :: rest =>
    if containsStr name_part cid then some cname
    else findConcentration name_part rest

/-- `re.search(r'(19|20)\d{2}', s)`: the leftmost four-character year token. -/
def findYearTok : List Char → Option String
  | a :: b :: c :: d :: rest =>
    if ((a = '1' ∧ b = '9') ∨ (a = '2' ∧ b = '0')) ∧ c.isDigit ∧ d.isDigit then
      some (String.mk [a, b, c, d])
    else findYearTok (b :: c :: d :: rest)
  | _ => none

/-- The version-word list of `fix_duplicate_names`. -/
def versionWords : List String :=
  ["intense", "extreme", "absolu", "noir", "sport", "aqua", "fresh", "cologne",
   "elixir"]

/-- Python `word.title()` for the single lowercase words above. -/
def pyTitle (s : String) : String :=
  match s.toList with
  | [] => ""
  | c :: t => String.mk (c.toUpper :: t)

/-- First version keyword contained in the name part, title-cased. -/
def findVersion (name_part : String) : List String → Option String
  | [] => none
  | w :: rest =>
    if containsStr name_part w then some (pyTitle w)
    else findVersion name_part rest

/-- The distinguisher search of `fix_duplicate_names` (lines 55–82):
concentration keyword, else year token, else version keyword. -/
def findDistinguisher (name_part : String) : Option String :=
  match findConcentration name_part concentrationTable with
  | some d => some d
  | none =>
    match findYearTok name_part.toList with
    | some y => some y
    | none => findVersion name_part versionWords

/-- Processing of the member at position `i` of a duplicate group
(lines 43–93): amend `name` with a distinguisher or a positional suffix;
`id` and `brand_id` are left untouched. -/
def fixMember (i : ℕ) (r : NameRecord) : NameRecord :=
  match pySplit ("__".toList) r.id.toList with
  | [_, name_part] =>
    match findDistinguisher (String.mk name_part) with
    | some d =>
      if containsStr r.name d then r
      else { r with name := r.name ++ " " ++ d }
    | none =>
      if 0 < i then { r with name := r.name ++ " (" ++ toString (i + 1) ++ ")" }
      else r
  | _ => r

/-- Per-group processing: singleton groups pass through; larger groups map
`fixMember` over `enumerate(group)`. -/
def fixGroup (g : List NameRecord) : List NameRecord :=
  if g.length ≤ 1 then g
  else g.enum.map (fun ir => fixMember ir.1 ir.2)

/-- `fix_duplicate_names` (lines 35–93): group by `(brand_id, name)` and
concatenate the processed groups in first-seen key order. -/
def fix_duplicate_names (l : List NameRecord) : List NameRecord :=
  ((groupByKey (fun r => (r.brand_id, r.name)) l).map (fun kg => fixGroup kg.2)).flatten

theorem fixMember_preserves (i : ℕ) (r : NameRecord) :
    (fixMember i r).id = r.id ∧ (fixMember i r).brand_id = r.brand_id := by
  unfold fixMember
  split
  · split
    · split
      · exact ⟨rfl, rfl⟩
      · exact ⟨rfl, rfl⟩
    · split
      · exact ⟨rfl, rfl⟩
      · exact ⟨rfl, rfl⟩
  · exact ⟨rfl, rfl⟩

/-- Two distinct records colliding on `(brand_id, name)` whose ids both
contain the concentration token `eau-de-parfum`. -/
def recC4edp : NameRecord :=
  { brand_id := "dior", name := "Sauvage", id := "dior__sauvage-eau-de-parfum" }

/-- Same key as `recC4edp`, same concentration token, different id. -/
def recC4edp2015 : NameRecord :=
  { brand_id := "dior", name := "Sauvage", id := "dior__sauvage-eau-de-parfum-2015" }

/-- Same key as `recC4edp` but with the `eau-de-toilette` token. -/
def recC4edt : NameRecord :=
  { brand_id := "dior", name := "Sauvage", id := "dior__sauvage-eau-de-toilette" }

/-- A colliding record with no distinguishing token in its id. -/
def recC4plain : NameRecord :=
  { brand_id := "b", name := "Plain", id := "b__plain" }

/-- **C4 counterexample.** On two same-key records whose ids both carry the
token `eau-de-parfum`, `fix_duplicate_names` finds a distinguishing token for
each member, yet (i) neither record's `id` is amended and (ii) both names
become `"Sauvage EDP"`, so the output still contains two records with the
same `(brand_id, name)` key — the claimed uniqueness guarantee fails. -/
theorem c4_counterexample_duplicate_keys_remain :
    (fix_duplicate_names [recC4edp, recC4edp2015]).map (fun r => (r.brand_id, r.name)) =
        [("dior", "Sauvage EDP"), ("dior", "Sauvage EDP")] ∧
      (fix_duplicate_names [recC4edp, recC4edp2015]).map (fun r => r.id) =
        ["dior__sauvage-eau-de-parfum", "dior__sauvage-eau-de-parfum-2015"] ∧
      ¬ ((fix_duplicate_names [recC4edp, recC4edp2015]).map
          (fun r => (r.brand_id, r.name))).Nodup := by
  refine ⟨by decide, by decide, by decide⟩

/-- **C4 (amended).** Disambiguation amends only `name`, never `id` or
`brand_id`; distinct distinguishing tokens split a group into distinct
`(brand_id, name)` keys (EDP/EDT example), and a member without any token at
position `i > 0` receives the positional suffix `" (i+1)"`; uniqueness of the
output keys is not guaranteed in general. -/
theorem c4_disambiguation_behavior :
    (∀ (i : ℕ) (r : NameRecord),
        (fixMember i r).id = r.id ∧ (fixMember i r).brand_id = r.brand_id) ∧
      (fix_duplicate_names [recC4edp, recC4edt]).map (fun r => (r.brand_id, r.name)) =
        [("dior", "Sauvage EDP"), ("dior", "Sauvage EDT")] ∧
      (fix_duplicate_names [recC4plain, recC4plain]).map (fun r => r.name) =
        ["Plain", "Plain (2)"] := by
  exact ⟨fixMember_preserves, by decide, by decide⟩

/-! ## Schema validator (`04_database_importer.py`,
`validate_fragrance_data`, lines 109–146)

A fragrance dict is modelled by optional fields (`none` = key absent); the
numeric fields are two-level options (`some none` = key present with `None`).
The validator appends one error per violated check, in source order, and
returns `(errors == [], errors)`.
-/

/-- The fields of a fragrance dict consulted by `validate_fragrance_data`. -/
structure Fragrance where
  id : Option String
  brand_id : Option String
  name : Option String
  slug : Option String
  gender : Option String
  hasMainAccords : Bool
  hasAccords : Bool
  rating_value : Option (Option ℚ)
  sample_price_usd : Option (Option ℚ)
deriving DecidableEq

/-- Python `s.startswith(pre)`. -/
def pyStartsWith (pre s : String) : Bool :=
  pre.toList.isPrefixOf s.toList

/-- `field not in fragrance or not fragrance[field]` for a string field. -/
def missingRequired : Option String → Bool
  | none => true
  | some s => s.isEmpty

/-- `validate_fragrance_data` (lines 109–146): accumulate one error per
violated check and report validity as emptiness of the error list. -/
def validate_fragrance_data (f : Fragrance) : Bool × List String :=
  let errors :=
    (if missingRequired f.id then ["Missing required field: id"] else []) ++
    (if missingRequired f.brand_id then ["Missing required field: brand_id"] else []) ++
    (if missingRequired f.name then ["Missing required field: name"] else []) ++
    (if missingRequired f.slug then ["Missing required field: slug"] else []) ++
    (if missingRequired f.gender then ["Missing required field: gender"] else []) ++
    (if !f.hasMainAccords && !f.hasAccords then
      ["Missing accords data (need main_accords or accords)"] else []) ++
    (match f.gender with
     | none => []
     | some g =>
       if g = "men" ∨ g = "women" ∨ g = "unisex" then []
       else ["Invalid gender: " ++ g]) ++
    (match f.rating_value with
     | some (some r) =>
       if 0 ≤ r ∧ r ≤ 5 then [] else ["Invalid rating_value"]
     | _ => []) ++
    (match f.sample_price_usd with
     | some (some p) =>
       if 0 ≤ p ∧ p ≤ 100 then [] else ["Invalid sample_price_usd"]
     | _ => []) ++
    (match f.id, f.brand_id with
     | some i, some b =>
       if pyStartsWith (b ++ "__") i then [] else ["ID format mismatch: " ++ i]
     | _, _ => [])
  (errors.isEmpty, errors)

/-- A record the validator accepts although its `id` is not
`brand_id ++ "__" ++ slug` (the code only checks the `brand_id ++ "__"`
prefix and ignores `slug`). -/
def fragC6 : Fragrance :=
  { id := some "b__x", brand_id := some "b", name := some "n", slug := some "y",
    gender := some "men", hasMainAccords := false, hasAccords := true,
    rating_value := none, sample_price_usd := none }

/-- **C6 counterexample.** The validator accepts a record whose `id`
(`"b__x"`) differs from `brand_id ++ "__" ++ slug` (`"b__y"`): the code's ID
check is only a `startswith(brand_id + "__")` prefix test and never consults
`slug`. -/
theorem c6_counterexample_accepts_mismatched_id :
    (validate_fragrance_data fragC6).1 = true ∧
      (validate_fragrance_data fragC6).2 = [] ∧
      fragC6.id = some "b__x" ∧ fragC6.brand_id = some "b" ∧
      fragC6.slug = some "y" ∧ "b__x" ≠ "b" ++ "__" ++ "y" := by
  refine ⟨by decide, by decide, rfl, rfl, rfl, by decide⟩

/-- **C6 (amended).** Every record accepted by the validator (empty error
list) whose `id` and `brand_id` keys are present has an `id` starting with
`brand_id ++ "__"`; full equality with `brand_id ++ "__" ++ slug` is not
checked. -/
theorem c6_accepted_id_has_brand_prefix (f : Fragrance) (i b : String)
    (hacc : (validate_fragrance_data f).2 = [])
    (hid : f.id = some i) (hbid : f.brand_id = some b) :
    pyStartsWith (b ++ "__") i = true := by
  simp only [validate_fragrance_data, hid, hbid, List.append_eq_nil] at hacc
  have h := hacc.2
  by_cases hp : pyStartsWith (b ++ "__") i = true
  · exact hp
  · rw [if_neg hp] at h
    exact absurd h (List.cons_ne_nil _ _)

/-- Witness record for C6: accepted, with `id = "phlur__missing-person"`. -/
def fragC6w : Fragrance :=
  { id := some "phlur__missing-person", brand_id := some "phlur",
    name := some "Missing Person", slug := some "missing-person",
    gender := some "women", hasMainAccords := true, hasAccords := false,
    rating_value := some (some 4), sample_price_usd := some (some 15) }

/-- Witness for C6 (amended) at a concrete accepted record. -/
theorem c6_accepted_id_has_brand_prefix_witness :
    (validate_fragrance_data fragC6w).2 = [] ∧
      pyStartsWith ("phlur" ++ "__") "phlur__missing-person" = true :=
  ⟨by decide,
    c6_accepted_id_has_brand_prefix fragC6w "phlur__missing-person" "phlur"
      (by decide) rfl rfl⟩

/-- **C7.** The validator accumulates every violation: any record that
simultaneously has a missing/empty `gender`, an out-of-range present
`rating_value`, and an `id`/`brand_id` pair failing the ID-format check
yields at least 3 errors from a single call. -/
theorem c7_validator_accumulates (f : Fragrance)
    (hg : missingRequired f.gender = true)
    (hr : ∃ r : ℚ, f.rating_value = some (some r) ∧ ¬(0 ≤ r ∧ r ≤ 5))
    (hi : ∃ i b : String, f.id = some i ∧ f.brand_id = some b ∧
      pyStartsWith (b ++ "__") i = false) :
    3 ≤ ((validate_fragrance_data f).2).length := by
  obtain ⟨r, hrv, hrb⟩ := hr
  obtain ⟨i, b, hid, hbid, hpre⟩ := hi
  simp only [validate_fragrance_data, hg, hrv, hid, hbid, hpre, if_true,
    Bool.false_eq_true, if_false, if_neg hrb, List.length_append,
    List.length_singleton]
  omega

/-- A record with the three independent violations of C7's scenario. -/
def fragC7 : Fragrance :=
  { id := some "x", brand_id := some "b", name := some "n", slug := some "s",
    gender := none, hasMainAccords := true, hasAccords := false,
    rating_value := some (some 7), sample_price_usd := none }

/-- Witness for C7 at a record missing `gender`, with `rating_value = 7` and
a malformed `id`. -/
theorem c7_validator_accumulates_witness :
    missingRequired fragC7.gender = true ∧
      3 ≤ ((validate_fragrance_data fragC7).2).length :=
  ⟨by decide,
    c7_validator_accumulates fragC7 (by decide)
      ⟨7, rfl, by decide⟩ ⟨"x", "b", rfl, rfl, by decide⟩⟩

/-- **C10.** Beyond the spec's listed checks, the validator rejects every
record that has neither an `accords` key nor a `main_accords` key: the error
list is non-empty and the validity flag is `false`. -/
theorem c10_missing_accords_rejected (f : Fragrance)
    (h1 : f.hasAccords = false) (h2 : f.hasMainAccords = false) :
    (validate_fragrance_data f).1 = false ∧
      (validate_fragrance_data f).2 ≠ [] := by
  have hlen : 0 < ((validate_fragrance_data f).2).length := by
    simp only [validate_fragrance_data, h1, h2, Bool.not_false, Bool.and_self,
      if_true, List.length_append, List.length_singleton]
    omega
  have hne : (validate_fragrance_data f).2 ≠ [] := by
    intro h
    rw [h] at hlen
    simp at hlen
  refine ⟨?_, hne⟩
  have hproj : (validate_fragrance_data f).1 =
      ((validate_fragrance_data f).2).isEmpty := rfl
  rw [hproj, Bool.eq_false_iff]
  intro hcon
  exact hne (List.isEmpty_iff.mp hcon)

/-- A record with every other field valid but no accords key at all. -/
def fragC10 : Fragrance :=
  { id := some "b__s", brand_id := some "b", name := some "n", slug := some "s",
    gender := some "unisex", hasMainAccords := false, hasAccords := false,
    rating_value := some (some 4), sample_price_usd := some (some 10) }

/-- Witness for C10 at a concrete record lacking both accord keys. -/
theorem c10_missing_accords_rejected_witness :
    fragC10.hasAccords = false ∧ fragC10.hasMainAccords = false ∧
      (validate_fragrance_data fragC10).1 = false :=
  ⟨rfl, rfl, (c10_missing_accords_rejected fragC10 rfl rfl).1⟩

/-! ## Batch upsert (`04_database_importer.py`, `batch_upsert`,
lines 297–327)

```python
for i in range(0, len(records), self.batch_size):   # batch_size = 100
    batch = records[i:i + self.batch_size]
    ...post...
    if response.status_code in [200, 201]: inserted += len(batch)
    else: log error          # no retry, loop continues
```

The Store's per-call responses are modelled by an oracle `resp : ℕ → Bool`
giving the success of the i-th POST.
-/

/-- `self.batch_size` (line 67: Supabase batch size limit). -/
def batchSize : ℕ := 100

/-- Fuel-indexed slicing `records[i:i+batch_size]` loop. -/
def batchesAux {α : Type} : ℕ → List α → List (List α)
  | _, [] => []
  | 0, l => [l]
  | fuel + 1, l => l.take batchSize :: batchesAux fuel (l.drop batchSize)

/-- The consecutive batches `records[0:100], records[100:200], …`. -/
def batches {α : Type} (l : List α) : List (List α) :=
  batchesAux l.length l

/-- The upsert loop: submit every batch in order, add `len(batch)` to the
inserted count exactly when the response for that POST is a success; a failed
batch is skipped whole and the loop continues. -/
def upsertGo {α : Type} (resp : ℕ → Bool) : ℕ → List (List α) → ℕ × List (List α)
  | _, [] => (0, [])
  | i, b :: bs =>
    let rest := upsertGo resp (i + 1) bs
    ((if resp i then b.length else 0) + rest.1, b :: rest.2)

/-- `batch_upsert` (lines 297–327): returns the inserted count and the list
of submitted batches. -/
def batch_upsert {α : Type} (resp : ℕ → Bool) (records : List α) : ℕ × List (List α) :=
  upsertGo resp 0 (batches records)

theorem batchesAux_spec {α : Type} :
    ∀ (fuel : ℕ) (l : List α), l.length ≤ fuel →
      ((batchesAux fuel l).all fun b => b.length ≤ batchSize) = true ∧
        (batchesAux fuel l).flatten = l := by
  intro fuel
  induction fuel with
  | zero =>
    intro l hl
    rw [List.length_eq_zero.mp (Nat.le_zero.mp hl)]
    exact ⟨rfl, rfl⟩
  | succ fuel ih =>
    intro l hl
    cases l with
    | nil => exact ⟨rfl, rfl⟩
    | cons a t =>
      rw [show batchesAux (fuel + 1) (a :: t) =
        (a :: t).take batchSize :: batchesAux fuel ((a :: t).drop batchSize) from rfl]
      have hdrop : ((a :: t).drop batchSize).length ≤ fuel := by
        rw [List.length_drop]
        simp only [List.length_cons] at hl ⊢
        have h100 : 1 ≤ batchSize := by decide
        omega
      obtain ⟨hall, hflat⟩ := ih _ hdrop
      constructor
      · rw [List.all_cons, hall, Bool.and_true]
        exact decide_eq_true (List.length_take_le _ _)
      · rw [List.flatten_cons, hflat, List.take_append_drop]

theorem upsertGo_submits {α : Type} (resp : ℕ → Bool) :
    ∀ (bs : List (List α)) (i : ℕ), (upsertGo resp i bs).2 = bs := by
  intro bs
  induction bs with
  | nil => intro i; rfl
  | cons b rest ih =>
    intro i
    show b :: (upsertGo resp (i + 1) rest).2 = b :: rest
    rw [ih (i + 1)]

theorem upsertGo_count {α : Type} (resp : ℕ → Bool) :
    ∀ (bs : List (List α)) (i : ℕ),
      (upsertGo resp i bs).1 =
        ((bs.enumFrom i).map fun ib => if resp ib.1 then ib.2.length else 0).sum := by
  intro bs
  induction bs with
  | nil => intro i; rfl
  | cons b rest ih =>
    intro i
    show (if resp i then b.length else 0) + (upsertGo resp (i + 1) rest).1 = _
    rw [ih (i + 1)]
    rfl

/-- **C9.** `batch_upsert` partitions its input into consecutive batches of
size at most `batchSize = 100` whose concatenation is the input; whatever the
Store's responses, every batch is submitted exactly once in order (a failing
batch neither aborts the run nor triggers a sub-batch retry), and the
inserted count adds the whole batch length exactly for the successful
responses. -/
theorem c9_batch_upsert_partition (resp : ℕ → Bool) {α : Type} (records : List α) :
    batchSize = 100 ∧
      ((batches records).all fun b => b.length ≤ batchSize) = true ∧
      (batches records).flatten = records ∧
      (batch_upsert resp records).2 = batches records ∧
      (batch_upsert resp records).1 =
        (((batches records).enum).map fun ib =>
          if resp ib.1 then ib.2.length else 0).sum := by
  obtain ⟨hall, hflat⟩ := batchesAux_spec records.length records (le_refl _)
  refine ⟨rfl, hall, hflat, upsertGo_submits resp _ 0, ?_⟩
  rw [show (batch_upsert resp records).1 = (upsertGo resp 0 (batches records)).1 from rfl]
  rw [upsertGo_count resp (batches records) 0]
  rfl

/-! ## Priority scoring (`kaggle_processor.py`, `calculate_priority_score`,
lines 27–92)

```python
if reviews > 0 and rating > 0:
    base_score = rating * math.log(reviews + 1)
else:
    return 0
# brand tier boost (first matching tier), recency boost, bestseller boost,
# classic boost; final_score = base * brand * recency * bestseller * classic
```

Float arithmetic is modelled over `ℝ` with `Real.log` for `math.log`; the
configuration tables are explicit parameters (`ScoringConfig`).
-/

/-- The externally loaded configuration consulted by
`calculate_priority_score`: the ordered brand-tier table and the curated
bestseller / classic lists with their boost constants. -/
structure ScoringConfig where
  tiers : List (List String × ℝ)
  bestsellers : List String
  bestsellerBoost : ℝ
  classics : List String
  classicBoost : ℝ

/-- Brand-tier lookup (lines 50–55): the first tier whose brand list contains
the brand wins; default multiplier `1.0`. -/
def brandBoost : List (List String × ℝ) → String → ℝ
  | [], _ => 1
  | (brands, mult) :: rest, brand =>
    if brand ∈ brands then mult else brandBoost rest brand

/-- Recency boost (lines 57–65). -/
def recencyBoost (year : ℤ) : ℝ :=
  if 2020 ≤ year then 1.2
  else if 2015 ≤ year then 1.1
  else if 2010 ≤ year then 1.05
  else 1

/-- `s.replace('-', '').replace(' ', '')`. -/
def squashStr (s : String) : String :=
  String.mk (s.toList.filter fun c => !(c == '-') && !(c == ' '))

/-- Bestseller matching (lines 67–75): a curated entry hits when, after
lowercasing the entry and squashing hyphens/spaces on both sides, it is a
substring of the (already lowercased) perfume name. -/
def bestsellerHit : List String → String → Bool
  | [], _ => false
  | e :: rest, name =>
    if containsStr (squashStr name) (squashStr (String.mk (pyLower e.toList))) then
      true
    else bestsellerHit rest name

/-- Classic matching (lines 77–83): as for bestsellers but the entry is used
as configured (not lowercased). -/
def classicHit : List String → String → Bool
  | [], _ => false
  | e :: rest, name =>
    if containsStr (squashStr name) (squashStr e) then true
    else classicHit rest name

/-- `calculate_priority_score` (lines 27–92) after CSV parsing: a missing
rating / review count parses to `0`, so the guard `reviews > 0 and
rating > 0` decides between the boosted base score and `0`. -/
noncomputable def calculate_priority_score (cfg : ScoringConfig)
    (rating : ℝ) (reviews year : ℤ) (brand perfume_name : String) : ℝ :=
  if 0 < reviews ∧ 0 < rating then
    rating * Real.log ((reviews : ℝ) + 1) * brandBoost cfg.tiers brand *
      recencyBoost year *
      (if bestsellerHit cfg.bestsellers perfume_name then cfg.bestsellerBoost else 1) *
      (if classicHit cfg.classics perfume_name then cfg.classicBoost else 1)
  else 0

/-- A configuration with no tier and no curated entry (Scenario D matches
nothing). -/
def emptyConfig : ScoringConfig :=
  { tiers := [], bestsellers := [], bestsellerBoost := 3, classics := [],
    classicBoost := 2 }

/-- The Scenario-D score:
`{rating_value: 4.2, rating_count: 850, year: 2024, brand_id: "phlur"}` with
no tier or curated-list match. -/
noncomputable def scenarioD : ℝ :=
  calculate_priority_score emptyConfig 4.2 850 2024 "phlur" "missing person"

theorem scenarioD_eval : scenarioD = 4.2 * Real.log 851 * 1.2 := by
  have h850 : (((850 : ℤ) : ℝ) + 1) = 851 := by norm_num
  unfold scenarioD calculate_priority_score
  rw [if_pos (⟨by norm_num, by norm_num⟩ : (0 : ℤ) < 850 ∧ (0 : ℝ) < 4.2)]
  rw [show brandBoost emptyConfig.tiers "phlur" = 1 from rfl]
  rw [show recencyBoost 2024 = 1.2 from by norm_num [recencyBoost]]
  rw [show bestsellerHit emptyConfig.bestsellers "missing person" = false from rfl]
  rw [show classicHit emptyConfig.classics "missing person" = false from rfl]
  rw [h850]
  norm_num

theorem log851_lt : Real.log 851 < 6.7559 := by
  rw [Real.log_lt_iff_lt_exp (by norm_num)]
  have hsplit : Real.exp 6.7559 = Real.exp 6 * Real.exp 0.7559 := by
    rw [← Real.exp_add]
    norm_num
  have hexp6 : Real.exp 6 = Real.exp 1 ^ 6 := by
    rw [← Real.exp_nat_mul]
    norm_num
  have he6 : (403.42877 : ℝ) < Real.exp 6 := by
    rw [hexp6]
    calc (403.42877 : ℝ) < 2.7182818283 ^ 6 := by norm_num
      _ ≤ Real.exp 1 ^ 6 :=
        pow_le_pow_left₀ (by norm_num) Real.exp_one_gt_d9.le 6
  have hs : (2.12949 : ℝ) < Real.exp 0.7559 := by
    have hsum := Real.sum_le_exp_of_nonneg
      (x := 0.7559) (by norm_num) 7
    refine lt_of_lt_of_le ?_ hsum
    rw [Finset.sum_range_succ, Finset.sum_range_succ, Finset.sum_range_succ,
      Finset.sum_range_succ, Finset.sum_range_succ, Finset.sum_range_succ,
      Finset.sum_range_succ, Finset.sum_range_zero]
    norm_num [Nat.factorial]
  rw [hsplit]
  calc (851 : ℝ) < 403.42877 * 2.12949 := by norm_num
    _ < Real.exp 6 * Real.exp 0.7559 :=
      mul_lt_mul he6 hs.le (by norm_num) (Real.exp_pos 6).le

theorem log851_gt : (6.7362 : ℝ) < Real.log 851 := by
  rw [Real.lt_log_iff_exp_lt (by norm_num)]
  have hsplit : Real.exp 6.7362 = Real.exp 6 * Real.exp 0.7362 := by
    rw [← Real.exp_add]
    norm_num
  have hexp6 : Real.exp 6 = Real.exp 1 ^ 6 := by
    rw [← Real.exp_nat_mul]
    norm_num
  have he6 : Real.exp 6 < 403.428802 := by
    rw [hexp6]
    calc Real.exp 1 ^ 6 ≤ 2.7182818286 ^ 6 :=
        pow_le_pow_left₀ (Real.exp_pos 1).le Real.exp_one_lt_d9.le 6
      _ < 403.428802 := by norm_num
  have hub : Real.exp 0.7362 ≤ 2.0879871 := by
    have hb := Real.exp_bound' (x := 0.7362) (by norm_num) (by norm_num)
      (n := 7) (by norm_num)
    refine hb.trans ?_
    rw [Finset.sum_range_succ, Finset.sum_range_succ, Finset.sum_range_succ,
      Finset.sum_range_succ, Finset.sum_range_succ, Finset.sum_range_succ,
      Finset.sum_range_succ, Finset.sum_range_zero]
    norm_num [Nat.factorial]
  rw [hsplit]
  calc Real.exp 6 * Real.exp 0.7362 < 403.428802 * 2.0879871 :=
      mul_lt_mul he6 hub (Real.exp_pos 0.7362) (by norm_num)
    _ < 851 := by norm_num

/-- **C5 counterexample.** The Scenario-D record does *not* score `≈ 34.5` to
2 decimal places: its score `4.2 · ln 851 · 1.2` is below `34.06`. -/
theorem c5_counterexample_score_not_34_5 :
    scenarioD < 34.06 ∧ ¬ |scenarioD - 34.5| < 0.005 := by
  have hlt : scenarioD < 34.06 := by
    rw [scenarioD_eval]
    have h := log851_lt
    nlinarith
  refine ⟨hlt, ?_⟩
  intro hcon
  rw [abs_lt] at hcon
  linarith [hcon.1]

/-- **C5 (amended).** With positive rating and review count the score is
`rating · ln(reviews + 1)` times the brand-tier, recency, bestseller and
classic boosts; a record whose rating or review count is missing or zero
(missing values parse to `0`) scores exactly `0`; and the Scenario-D record
`{rating_value: 4.2, rating_count: 850, year: 2024, brand_id: "phlur"}` with
no tier or curated match scores `4.2 · ln 851 · 1.2 ≈ 34.00` (not `34.5`) to
2 decimal places. -/
theorem c5_priority_score_formula :
    (∀ (cfg : ScoringConfig) (rating : ℝ) (reviews year : ℤ)
        (brand name : String), 0 < reviews → 0 < rating →
        calculate_priority_score cfg rating reviews year brand name =
          rating * Real.log ((reviews : ℝ) + 1) * brandBoost cfg.tiers brand *
            recencyBoost year *
            (if bestsellerHit cfg.bestsellers name then cfg.bestsellerBoost else 1) *
            (if classicHit cfg.classics name then cfg.classicBoost else 1)) ∧
      (∀ (cfg : ScoringConfig) (rating : ℝ) (reviews year : ℤ)
          (brand name : String), reviews ≤ 0 ∨ rating ≤ 0 →
          calculate_priority_score cfg rating reviews year brand name = 0) ∧
      |scenarioD - 34| < 0.05 := by
  refine ⟨?_, ?_, ?_⟩
  · intro cfg rating reviews year brand name hrev hrat
    unfold calculate_priority_score
    rw [if_pos ⟨hrev, hrat⟩]
  · intro cfg rating reviews year brand name h
    unfold calculate_priority_score
    rw [if_neg]
    rintro ⟨h1, h2⟩
    rcases h with h | h
    · exact absurd h1 (not_lt.mpr h)
    · exact absurd h2 (not_lt.mpr h)
  · rw [scenarioD_eval, abs_lt]
    have h1 := log851_gt
    have h2 := log851_lt
    constructor <;> nlinarith

/-- Witness for C5 (amended): the formula branch at the Scenario-D inputs and
the zero branch at a zero review count. -/
theorem c5_priority_score_formula_witness :
    calculate_priority_score emptyConfig 4.2 850 2024 "phlur" "missing person" =
        4.2 * Real.log (((850 : ℤ) : ℝ) + 1) * brandBoost emptyConfig.tiers "phlur" *
          recencyBoost 2024 *
          (if bestsellerHit emptyConfig.bestsellers "missing person" then
            emptyConfig.bestsellerBoost else 1) *
          (if classicHit emptyConfig.classics "missing person" then
            emptyConfig.classicBoost else 1) ∧
      calculate_priority_score emptyConfig 4.2 0 2024 "phlur" "missing person" = 0 :=
  ⟨c5_priority_score_formula.1 emptyConfig 4.2 850 2024 "phlur" "missing person"
      (by norm_num) (by norm_num),
    c5_priority_score_formula.2.1 emptyConfig 4.2 0 2024 "phlur" "missing person"
      (Or.inl le_rfl)⟩

end ScentMatch
